import Mathlib

/-!
Verification of the timestamp-to-player synchronization subsystem of the
roam-yts extension (src/index.ts).

The development shallowly embeds the relevant source functions:

* `formatTimestamp`   (index.ts:35-47)   — milliseconds to `mm:ss` / `hh:mm:ss`
* `parseTimestampL`   (index.ts:435-441) — timestamp literal to total seconds
* the timestamp recognizer `ALL_TIMESTAMPS_PATTERN` (index.ts:428), embedded as
  an executable matcher with JS backtracking semantics
* `addTimestampButtons` (index.ts:508-598) over an explicit DOM tree model
* `findYouTubePlayer` (index.ts:448-473)
* `initTimestampObserver` / `cleanupTimestampObserver` (index.ts:603-668) over
  an explicit watcher-state model.

Strings of the host page are modelled as `List Char`; text nodes carry numeric
ids modelling JavaScript object identity (a DOM node detached by `replaceChild`
is gone from the tree but the JS reference to it survives, which the source
code relies on).
-/

/-- JS `\d` character class (ASCII digits, which is exactly what `\d` matches). -/
def isDigitCh (c : Char) : Bool := 48 ≤ c.toNat && c.toNat ≤ 57

/-- JS `\s` character class, restricted to the ASCII whitespace characters
(space, tab, LF, VT, FF, CR); the Unicode space characters also matched by
JS `\s` play no role in the claims. -/
def isWsCh (c : Char) : Bool := c.toNat = 32 || (9 ≤ c.toNat && c.toNat ≤ 13)

/-- Decimal value of a digit string, accumulator form (the value JS `Number`
produces on an all-digit string). -/
def digitsValAux (acc : Nat) : List Char → Nat
  | [] => acc
  | c :: t => digitsValAux (acc * 10 + (c.toNat - 48)) t

def digitsVal (l : List Char) : Nat := digitsValAux 0 l

/-- JS `Number(s)` on the strings that can reach `parseTimestamp`:
`Number("") = 0`, an all-digit string maps to its decimal value, and anything
else is `NaN`, modelled as `none`.  (Signed, fractional or exponent literals
are never produced by `split(':')` on a recognizer match; the spec makes them
undefined behaviour of the caller.) -/
def jsNumber (l : List Char) : Option Int :=
  if l.isEmpty then some 0
  else if l.all isDigitCh then some (digitsVal l : Nat)
  else none

/-- JS `String.prototype.split(':')`. -/
def splitColon : List Char → List (List Char)
  | [] => [[]]
  | c :: t =>
    if c = ':' then [] :: splitColon t
    else
      match splitColon t with
      | h :: r => (c :: h) :: r
      | [] => [[c]]

/-- Element `i` of the mapped parts list; an out-of-range access is JS
`undefined`, which turns the arithmetic into `NaN` (`none`). -/
def partGet (ps : List (Option Int)) (i : Nat) : Option Int := (ps[i]?).join

/-- `parseTimestamp` (index.ts:435-441): split on `':'`, map each part through
`Number`, combine as `h*3600 + m*60 + s` for three parts and `m*60 + s`
otherwise. -/
def parseTimestampL (l : List Char) : Option Int :=
  let parts := (splitColon l).map jsNumber
  if parts.length = 3 then
    match partGet parts 0, partGet parts 1, partGet parts 2 with
    | some h, some m, some s => some (h * 3600 + m * 60 + s)
    | _, _, _ => none
  else
    match partGet parts 0, partGet parts 1 with
    | some m, some s => some (m * 60 + s)
    | _, _ => none

/-- Decimal digit character for `n < 10` (used for JS `String(num)`). -/
def digitCh (n : Nat) : Char :=
  match n with
  | 0 => '0' | 1 => '1' | 2 => '2' | 3 => '3' | 4 => '4'
  | 5 => '5' | 6 => '6' | 7 => '7' | 8 => '8' | _ => '9'

/-- JS `String(num)` for a natural number: decimal representation.  The fuel
argument (always at least `n + 1`, so never exhausted) keeps the recursion
structural. -/
def natCharsAux : Nat → Nat → List Char
  | 0, _ => []
  | fuel + 1, n =>
    if n < 10 then [digitCh n]
    else natCharsAux fuel (n / 10) ++ [digitCh (n % 10)]

def natChars (n : Nat) : List Char := natCharsAux (n + 1) n

/-- JS `String(num).padStart(2, "0")`. -/
def pad2 (l : List Char) : List Char :=
  if 2 ≤ l.length then l else List.replicate (2 - l.length) '0' ++ l

/-- `formatTimestamp` (index.ts:35-47): milliseconds to `hh:mm:ss` when the
hour component is positive, else `mm:ss`.  The claims only concern
nonnegative integral inputs, so the argument is a `Nat` (on that domain JS
`Math.floor(ms / 1000)` is Nat division). -/
def formatTimestamp (ms : Nat) : List Char :=
  let totalSeconds := ms / 1000
  let hours := totalSeconds / 3600
  let minutes := totalSeconds % 3600 / 60
  let seconds := totalSeconds % 60
  if hours > 0 then
    pad2 (natChars hours) ++ (':' :: (pad2 (natChars minutes) ++ (':' :: pad2 (natChars seconds))))
  else
    pad2 (natChars minutes) ++ (':' :: pad2 (natChars seconds))

/-!
## The timestamp recognizer

`ALL_TIMESTAMPS_PATTERN = /(?:\*\*)?((?:\d+:)?\d+:\d{2})(?:\*\*)?(?=\s)/g`
(index.ts:428).  The matcher below implements the JS backtracking semantics
of this pattern faithfully:

* `\d+` is greedy; backtracking it can never help, because a shorter digit
  run would put a digit where `':'` is required, so each `\d+:` piece
  deterministically consumes the maximal digit run and a following `':'`.
* the optional group `(?:\d+:)?` is tried with the group present first
  (three components), then absent (two components);
* the trailing `(?:\*\*)?` is tried greedily and falls back to empty, after
  which the lookahead `(?=\s)` must see a whitespace character (a lookahead
  at the very end of the input fails).
-/

/-- The trailing `(?:\*\*)?(?=\s)` of the pattern: returns how many characters
the optional bold marker consumes, or `none` when the lookahead fails.  When
`"**"` is present but not followed by whitespace, the fallback lookahead sees
`'*'`, which is not whitespace, so the whole tail fails. -/
def tailLen : List Char → Option Nat
  | c1 :: c2 :: w :: _ =>
    if c1 = '*' && c2 = '*' then (if isWsCh w then some 2 else none)
    else (if isWsCh c1 then some 0 else none)
  | c1 :: _ =>
    if c1 = '*' then none else (if isWsCh c1 then some 0 else none)
  | [] => none

/-- The core `((?:\d+:)?\d+:\d{2})` followed by the tail, attempted at the
head of the input.  Returns `(total consumed length including the tail,
captured core)`. -/
def coreThen (l : List Char) : Option (Nat × List Char) :=
  let d1 := l.takeWhile isDigitCh
  let r1 := l.dropWhile isDigitCh
  if d1.isEmpty then none else
  match r1 with
  | ':' :: r2 =>
    let three :=
      let d2 := r2.takeWhile isDigitCh
      let r3 := r2.dropWhile isDigitCh
      if d2.isEmpty then none else
      match r3 with
      | ':' :: a :: b :: r5 =>
        if isDigitCh a && isDigitCh b then
          match tailLen r5 with
          | some k =>
            some (d1.length + 1 + d2.length + 1 + 2 + k,
                  d1 ++ (':' :: (d2 ++ (':' :: [a, b]))))
          | none => none
        else none
      | _ => none
    match three with
    | some x => some x
    | none =>
      match r2 with
      | a :: b :: r5 =>
        if isDigitCh a && isDigitCh b then
          match tailLen r5 with
          | some k => some (d1.length + 1 + 2 + k, d1 ++ (':' :: [a, b]))
          | none => none
        else none
      | _ => none
  | _ => none

/-- One match attempt of the full pattern at the head of the input, including
the leading optional `(?:\*\*)?` (greedy, with fallback).  Returns
`(full match length, capture group 1)`. -/
def tryAt (l : List Char) : Option (Nat × List Char) :=
  match l with
  | '*' :: '*' :: r =>
    (match coreThen r with
     | some (n, cap) => some (n + 2, cap)
     | none => coreThen l)
  | _ => coreThen l

/-- Leftmost match search: offset of the first position where the pattern
matches, with the match length and capture.  (An attempt at the empty suffix
always fails, since the core needs a digit.) -/
def scanFrom : List Char → Option (Nat × Nat × List Char)
  | [] => none
  | c :: t =>
    match tryAt (c :: t) with
    | some (n, cap) => some (0, n, cap)
    | none => (scanFrom t).map (fun x => (x.1 + 1, x.2))

/-- The `exec` loop over the `/g` pattern: collect the successive capture
groups, resuming after each match.  Every match consumes at least one
character, so `l.length + 1` steps of fuel always suffice. -/
def scanCaptures : Nat → List Char → List (List Char)
  | 0, _ => []
  | fuel + 1, l =>
    match scanFrom l with
    | none => []
    | some (o, n, cap) => cap :: scanCaptures fuel (l.drop (o + n))

/-- All capture groups produced by repeatedly `exec`ing
`ALL_TIMESTAMPS_PATTERN` on `l` (index.ts:522-532, before deduplication). -/
def timestampCaptures (l : List Char) : List (List Char) :=
  scanCaptures (l.length + 1) l

/-- The keep-first deduplication of index.ts:526
(`!timestampMatches.find(t => t.timestamp === timestamp)`). -/
def dedupeKeepFirst (l : List (List Char)) : List (List Char) :=
  l.foldl (fun acc t => if acc.contains t then acc else acc ++ [t]) []

/-- JS `haystack.indexOf(needle, i₀)` implemented on the suffix, carrying the
absolute index. -/
def indexOfAux (ts : List Char) : List Char → Nat → Option Nat
  | [], i => if ts.isEmpty then some i else none
  | c :: r, i =>
    if ts.isPrefixOf (c :: r) then some i else indexOfAux ts r (i + 1)

/-- JS `s.indexOf(ts)`. -/
def indexOfSub (s ts : List Char) : Option Nat := indexOfAux ts s 0

/-- JS `s.indexOf(ts, start)`. -/
def indexOfFrom (s ts : List Char) (start : Nat) : Option Nat :=
  indexOfAux ts (s.drop start) start

/-- The occurrence-collection loop of index.ts:545-554: every index of a
non-overlapping occurrence of `ts` in `s`, advancing by `ts.length` after
each hit.  `ts` is always a nonempty capture, so `s.length + 1` steps of
fuel always suffice. -/
def occAux (s ts : List Char) : Nat → Nat → List Nat
  | 0, _ => []
  | fuel + 1, start =>
    match indexOfFrom s ts start with
    | none => []
    | some i => i :: occAux s ts fuel (i + ts.length)

def occurrenceIndices (s ts : List Char) : List Nat :=
  occAux s ts (s.length + 1) 0

/-- The grammar captured by group 1 of the pattern:
`m+:ss` or `h+:m+:ss`, digits only, seconds exactly two digits, the other
components at least one digit. -/
def IsCoreChars (l : List Char) : Prop :=
  (∃ m a b, m ≠ [] ∧ (∀ c ∈ m, isDigitCh c = true) ∧
    isDigitCh a = true ∧ isDigitCh b = true ∧ l = m ++ (':' :: [a, b])) ∨
  (∃ h m a b, h ≠ [] ∧ (∀ c ∈ h, isDigitCh c = true) ∧
    m ≠ [] ∧ (∀ c ∈ m, isDigitCh c = true) ∧
    isDigitCh a = true ∧ isDigitCh b = true ∧
    l = h ++ (':' :: (m ++ (':' :: [a, b]))))

/-!
## DOM model

A `Dom` tree models the live document subtree the augmentation pass works
on.  Every node carries a numeric id modelling JavaScript object identity:
the source keeps JS references to text nodes in `nodesToProcess` and later
dereferences them even after `replaceChild` has detached them from the tree
(a detached node keeps its text but has a `null` parent, so the final
`replaceChild` on it is a no-op).  In the model a detached id is simply no
longer found in the tree, which produces the same no-op.
-/

inductive Dom : Type where
  | elem (id : Nat) (tag : String) (cls : List String)
         (ats : List (String × String)) (click : Option Int)
         (children : List Dom)
  | text (id : Nat) (s : List Char)

/-- Is this element a `TimestampMarker` (`classList.contains('yts-timestamp')`)? -/
def isMarkerEl : Dom → Bool
  | .elem _ _ cls _ _ _ => cls.contains "yts-timestamp"
  | .text _ _ => false

mutual
def textContentD : Dom → List Char
  | .text _ s => s
  | .elem _ _ _ _ _ cs => textContentList cs
def textContentList : List Dom → List Char
  | [] => []
  | c :: t => textContentD c ++ textContentList t
end

mutual
def maxIdD : Dom → Nat
  | .text i _ => i
  | .elem i _ _ _ _ cs => max i (maxIdList cs)
def maxIdList : List Dom → Nat
  | [] => 0
  | c :: t => max (maxIdD c) (maxIdList t)
end

/-! `collectContainers`: `document.querySelectorAll('.roam-block-container')`
(index.ts:510) — ids of all matching elements in document order. -/
mutual
def collectContainers : Dom → List Nat
  | .text _ _ => []
  | .elem i _ cls _ _ cs =>
    (if cls.contains "roam-block-container" then [i] else []) ++ containersList cs
def containersList : List Dom → List Nat
  | [] => []
  | c :: t => collectContainers c ++ containersList t
end

/-! `fbcNode`/`fbcList`:
`container.querySelector('.rm-block-text, .rm-block__input > span')`
(index.ts:514) — first descendant in document order matching either selector;
the child combinator needs the parent's class list, which the traversal
carries along. -/
mutual
def fbcNode (pcls : List String) : Dom → Option Nat
  | .text _ _ => none
  | .elem i tg cls _ _ cs =>
    if cls.contains "rm-block-text" || (tg = "span" && pcls.contains "rm-block__input")
    then some i
    else fbcList cls cs
def fbcList (pcls : List String) : List Dom → Option Nat
  | [] => none
  | c :: t =>
    match fbcNode pcls c with
    | some i => some i
    | none => fbcList pcls t
end

def findBlockContent : Dom → Option Nat
  | .text _ _ => none
  | .elem _ _ cls _ _ cs => fbcList cls cs

mutual
def getById : Dom → Nat → Option Dom
  | .text i s, j => if i = j then some (Dom.text i s) else none
  | .elem i tg cls ats ck cs, j =>
    if i = j then some (Dom.elem i tg cls ats ck cs) else getByIdList cs j
def getByIdList : List Dom → Nat → Option Dom
  | [], _ => none
  | c :: t, j =>
    match getById c j with
    | some d => some d
    | none => getByIdList t j
end

/-! `collectOccNode`: the TreeWalker collection loop of index.ts:539-554 for
one literal `ts` — `(text node id, occurrence index)` pairs in document
order, skipping any text node whose parent element already carries the
marker class. -/
mutual
def collectOccNode (pMarked : Bool) (ts : List Char) : Dom → List (Nat × Nat)
  | .text i s => if pMarked then [] else (occurrenceIndices s ts).map (fun k => (i, k))
  | .elem _ _ cls _ _ cs => collectOccList (cls.contains "yts-timestamp") ts cs
def collectOccList (pMarked : Bool) (ts : List Char) : List Dom → List (Nat × Nat)
  | [] => []
  | c :: t => collectOccNode pMarked ts c ++ collectOccList pMarked ts t
end

/-! `lookupTextNode`: dereference a text-node id in the current tree — its
current text and whether its parent element carries the marker class.
`none` models a node that has been detached (replaced); the source's
subsequent `replaceChild` through its `null` parent is then a no-op. -/
mutual
def lookupTextNode (pMarked : Bool) (j : Nat) : Dom → Option (List Char × Bool)
  | .text i s => if i = j then some (s, pMarked) else none
  | .elem _ _ cls _ _ cs => lookupTextList (cls.contains "yts-timestamp") j cs
def lookupTextList (pMarked : Bool) (j : Nat) : List Dom → Option (List Char × Bool)
  | [] => none
  | c :: t =>
    match lookupTextNode pMarked j c with
    | some r => some r
    | none => lookupTextList pMarked j t
end

/-- Is this node the text node with id `j` (the JS object the source holds a
reference to)? -/
def isTargetText (j : Nat) : Dom → Bool
  | .text i _ => i = j
  | .elem _ _ _ _ _ _ => false

/-! `replaceTN`: `node.parentNode.replaceChild(fragment, node)`
(index.ts:594) — splice `frag` in place of the text node with id `j`. -/
mutual
def replaceTN (j : Nat) (frag : List Dom) : Dom → Dom
  | .text i s => Dom.text i s
  | .elem i tg cls ats ck cs => Dom.elem i tg cls ats ck (replaceTNList j frag cs)
def replaceTNList (j : Nat) (frag : List Dom) : List Dom → List Dom
  | [] => []
  | c :: t =>
    if isTargetText j c then frag ++ t
    else replaceTN j frag c :: replaceTNList j frag t
end

def markerTitle (ts : List Char) : String := "Click to jump to " ++ String.mk ts

/-- Processing of one pending `(node, idx)` entry (index.ts:557-595).  The
state is `(tree, fresh id counter)`.  Note the source recomputes
`currentIdx = nodeText.indexOf(timestamp)` from position 0, ignoring the
recorded index (index.ts:560). -/
def processOne (ts : List Char) (secs : Option Int) (st : Dom × Nat) (e : Nat × Nat) :
    Dom × Nat :=
  match lookupTextNode false e.1 st.1 with
  | none => st
  | some (txt, pM) =>
    match indexOfSub txt ts with
    | none => st
    | some ci =>
      if pM then st
      else
        let before := txt.take ci
        let after := txt.drop (ci + ts.length)
        let span := Dom.elem st.2 "span" ["yts-timestamp"]
          [("title", markerTitle ts)] secs [Dom.text (st.2 + 1) ts]
        let frag := (if before.isEmpty then [] else [Dom.text (st.2 + 2) before])
          ++ span :: (if after.isEmpty then [] else [Dom.text (st.2 + 3) after])
        (replaceTN e.1 frag st.1, st.2 + 4)

/-- One literal's round of index.ts:537-596: walk the live blockContent
subtree, then process the collected entries in reverse order. -/
def processLiteral (bcId : Nat) (st : Dom × Nat) (ts : List Char) : Dom × Nat :=
  match getById st.1 bcId with
  | none => st
  | some bc =>
    (collectOccNode false ts bc).reverse.foldl (processOne ts (parseTimestampL ts)) st

/-- One container's round of index.ts:512-597. -/
def processContainer (st : Dom × Nat) (cid : Nat) : Dom × Nat :=
  match getById st.1 cid with
  | none => st
  | some cont =>
    match findBlockContent cont with
    | none => st
    | some bcId =>
      match getById st.1 bcId with
      | none => st
      | some bc =>
        let lits := dedupeKeepFirst (timestampCaptures (textContentD bc))
        if lits.isEmpty then st else lits.foldl (processLiteral bcId) st

/-- `addTimestampButtons` (index.ts:508-598), the Augmentation Pass: the
container list is snapshotted up front (`querySelectorAll` returns a static
NodeList) and the tree is threaded through each container's round.  Fresh
node ids start above every id in the tree. -/
def addTimestampButtons (d : Dom) : Dom :=
  ((collectContainers d).foldl processContainer (d, maxIdD d + 1)).1

/-- A container has nothing left to wrap: every occurrence of every matched
literal sits under an already-marked parent (the walker collects no entry). -/
def containerSettled (d : Dom) (cid : Nat) : Bool :=
  match getById d cid with
  | none => true
  | some cont =>
    match findBlockContent cont with
    | none => true
    | some bcId =>
      match getById d bcId with
      | none => true
      | some bc =>
        (dedupeKeepFirst (timestampCaptures (textContentD bc))).all
          (fun ts => (collectOccNode false ts bc).isEmpty)

/-- No container anywhere has an unmarked occurrence of a matched literal. -/
def noPendingWork (d : Dom) : Bool := (collectContainers d).all (containerSettled d)

/-! `collectMarkers`: all `TimestampMarker` elements, in document order —
`(id, textContent, captured click seconds)`. -/
mutual
def collectMarkers : Dom → List (Nat × List Char × Option Int)
  | .text _ _ => []
  | .elem i _ cls _ ck cs =>
    (if cls.contains "yts-timestamp" then [(i, textContentList cs, ck)] else [])
      ++ markersList cs
def markersList : List Dom → List (Nat × List Char × Option Int)
  | [] => []
  | c :: t => collectMarkers c ++ markersList t
end

def markerCountD (d : Dom) : Nat := (collectMarkers d).length

/-!
## Teardown: unwrapping markers

`cleanupTimestampObserver` (index.ts:664-667) takes a static snapshot
`document.querySelectorAll('.yts-timestamp')` (document order) and calls
`span.replaceWith(document.createTextNode(span.textContent))` on each entry.
In document order every marker is visited before the markers nested inside
it; replacing an outer marker detaches the inner ones, whose later
`replaceWith` (no parent) is a no-op.  The net effect is therefore: every
marker with no marker ancestor is replaced by a text node carrying its
textContent at snapshot time.  `unwrapNode`/`unwrapList` implement exactly
that, threading a fresh-id counter for the created text nodes (the document
root models `document.body` and is never itself a marker). -/
mutual
def unwrapNode (k : Nat) : Dom → Dom × Nat
  | .text i s => (Dom.text i s, k)
  | .elem i tg cls ats ck cs =>
    let r := unwrapList k cs
    (Dom.elem i tg cls ats ck r.1, r.2)
def unwrapList (k : Nat) : List Dom → List Dom × Nat
  | [] => ([], k)
  | c :: t =>
    if isMarkerEl c then
      let r := unwrapList (k + 1) t
      (Dom.text k (textContentD c) :: r.1, r.2)
    else
      let rc := unwrapNode k c
      let rt := unwrapList rc.2 t
      (rc.1 :: rt.1, rt.2)
end

def unwrapMarkers (d : Dom) : Dom := (unwrapNode (maxIdD d + 1) d).1

/-!
## The Mutation Watcher (index.ts:603-668)

State of the page-global resources the watcher manipulates:

* `doc`        — the observed document tree;
* `styleCount` — how many `<style id="yts-styles">` elements are installed
  (`initTimestampObserver` appends one unconditionally; cleanup removes the
  one `getElementById` finds, if any);
* `live`       — ids of MutationObservers that are currently observing
  (created and never disconnected unless cleanup reaches them);
* `handle`     — `window.YTSObserver`;
* `nextObs`    — fresh observer id source;
* `timers`     — fire times of armed `setTimeout(addTimestampButtons, 100)`
  callbacks.  The source stores no timeout handle and never calls
  `clearTimeout`, so timers are only ever appended here;
* `now`        — current event-loop time in ms.
-/
structure WatcherState where
  doc : Dom
  styleCount : Nat
  live : List Nat
  handle : Option Nat
  nextObs : Nat
  timers : List Nat
  now : Nat

/-- One entry of the `MutationRecord[]` batch handed to the observer
callback: how many nodes `addedNodes` holds and whether the record's type
is `'characterData'`. -/
structure MutationRec where
  addedNodes : Nat
  isCharData : Bool

/-- `initTimestampObserver` (index.ts:603-647): append the style element,
run one immediate pass, create and start a new observer and store it in
`window.YTSObserver` — overwriting, not disconnecting, any previous one. -/
def initTimestampObserver (s : WatcherState) : WatcherState :=
  { doc := addTimestampButtons s.doc
    styleCount := s.styleCount + 1
    live := s.live ++ [s.nextObs]
    handle := some s.nextObs
    nextObs := s.nextObs + 1
    timers := s.timers
    now := s.now }

/-- The observer callback (index.ts:625-637): if any record has added nodes
or is a character-data change, arm `setTimeout(addTimestampButtons, 100)`.
No previous timer is cleared — the source keeps no timeout handle. -/
def observerCallback (s : WatcherState) (muts : List MutationRec) : WatcherState :=
  let shouldUpdate := muts.any (fun m => decide (0 < m.addedNodes) || m.isCharData)
  if shouldUpdate then
    { doc := s.doc, styleCount := s.styleCount, live := s.live,
      handle := s.handle, nextObs := s.nextObs,
      timers := s.timers ++ [s.now + 100], now := s.now }
  else s

/-- Advance the event-loop clock (no timer fires in between). -/
def tick (s : WatcherState) (dt : Nat) : WatcherState :=
  { doc := s.doc, styleCount := s.styleCount, live := s.live,
    handle := s.handle, nextObs := s.nextObs,
    timers := s.timers, now := s.now + dt }

/-- A timeout firing: run the scheduled `addTimestampButtons` and retire the
timer.  (Cleanup never removes entries from `timers`, so a timer armed
before `cleanupTimestampObserver` still fires afterwards.) -/
def fireTimer (s : WatcherState) : WatcherState :=
  match s.timers with
  | [] => s
  | t :: rest =>
    { doc := addTimestampButtons s.doc, styleCount := s.styleCount,
      live := s.live, handle := s.handle, nextObs := s.nextObs,
      timers := rest, now := max s.now t }

/-- `cleanupTimestampObserver` (index.ts:652-668): disconnect and drop the
stored observer (only that one), remove the style element `getElementById`
finds (one at most), and unwrap every marker.  Nothing touches `timers`. -/
def cleanupTimestampObserver (s : WatcherState) : WatcherState :=
  let live1 := match s.handle with
    | some o => s.live.filter (fun x => decide (x ≠ o))
    | none => s.live
  { doc := unwrapMarkers s.doc
    styleCount := s.styleCount - 1
    live := live1
    handle := none
    nextObs := s.nextObs
    timers := s.timers
    now := s.now }

/-!
## Player location (index.ts:448-473)

`findYouTubePlayer` addresses nodes by paths (lists of child indices from
the document root), since `closest`/`parentElement` walk upward.
-/

/-- Node at a path. -/
def nodeAt : Dom → List Nat → Option Dom
  | d, [] => some d
  | .elem _ _ _ _ _ cs, i :: p =>
    match cs[i]? with
    | some c => nodeAt c p
    | none => none
  | .text _ _, _ :: _ => none

/-- Does the node match `iframe[src*="youtube.com"], iframe[src*="youtu.be"]`? -/
def isYtIframe : Dom → Bool
  | .elem _ tg _ ats _ _ =>
    tg = "iframe" &&
      (match ats.lookup "src" with
       | some src =>
         (indexOfSub src.data "youtube.com".data).isSome
           || (indexOfSub src.data "youtu.be".data).isSome
       | none => false)
  | .text _ _ => false

def isBlockContainerAt (root : Dom) (p : List Nat) : Bool :=
  match nodeAt root p with
  | some (.elem _ _ cls _ _ _) => cls.contains "roam-block-container"
  | _ => false

/-- `element.closest('.roam-block-container')`: walk from `p` up through its
ancestors (including `p` itself) to the first block container.  Fuel is the
path length, which bounds the number of parent steps. -/
def closestBCAux (root : Dom) : Nat → List Nat → Option (List Nat)
  | 0, p => if isBlockContainerAt root p then some p else none
  | fuel + 1, p =>
    if isBlockContainerAt root p then some p
    else if p.isEmpty then none
    else closestBCAux root fuel p.dropLast

def closestBC (root : Dom) (p : List Nat) : Option (List Nat) :=
  closestBCAux root p.length p

/-! `qselNode`: `querySelector` over the descendants of a node (the node
itself is not considered), returning the relative path of the first match
in document order. -/
mutual
def qselNode (pr : Dom → Bool) : Dom → Option (List Nat)
  | .text _ _ => none
  | .elem _ _ _ _ _ cs => qselList pr 0 cs
def qselList (pr : Dom → Bool) (i : Nat) : List Dom → Option (List Nat)
  | [] => none
  | c :: t =>
    if pr c then some [i]
    else
      match qselNode pr c with
      | some q => some (i :: q)
      | none => qselList pr (i + 1) t
end

/-! `allPaths`: all paths of the tree, in document (pre-)order. -/
mutual
def allPaths : Dom → List (List Nat)
  | .text _ _ => [[]]
  | .elem _ _ _ _ _ cs => [] :: allPathsList 0 cs
def allPathsList (i : Nat) : List Dom → List (List Nat)
  | [] => []
  | c :: t => (allPaths c).map (fun q => i :: q) ++ allPathsList (i + 1) t
end

def ytAt (root : Dom) (p : List Nat) : Bool :=
  match nodeAt root p with
  | some d => isYtIframe d
  | none => false

/-- `document.querySelectorAll('iframe[src*="youtube.com"], iframe[src*="youtu.be"]')`
(index.ts:467): paths of every matching element, document order. -/
def allYtIframes (root : Dom) : List (List Nat) :=
  (allPaths root).filter (ytAt root)

/-- The ancestor walk of index.ts:450-464: from the nearest block container
of `current`, look for a YouTube iframe inside the parent's nearest block
container; then continue from there.  Each step strictly shortens the path,
so `p.length + 1` rounds of fuel suffice. -/
def ancestorSearchAux (root : Dom) : Nat → List Nat → Option (List Nat)
  | 0, _ => none
  | fuel + 1, current =>
    match closestBC root current with
    | none => none
    | some container =>
      if container.isEmpty then none
      else
        match closestBC root container.dropLast with
        | none => none
        | some pc =>
          match nodeAt root pc with
          | none => none
          | some pcNode =>
            match qselNode isYtIframe pcNode with
            | some rel => some (pc ++ rel)
            | none => ancestorSearchAux root fuel pc

def ancestorSearch (root : Dom) (p : List Nat) : Option (List Nat) :=
  ancestorSearchAux root (p.length + 1) p

/-- `findYouTubePlayer` (index.ts:448-473): the ancestor walk, then the
global fallback `allIframes[0]`, else `null`. -/
def findYouTubePlayer (root : Dom) (blockElement : List Nat) : Option (List Nat) :=
  match ancestorSearch root blockElement with
  | some q => some q
  | none => (allYtIframes root).head?

/-!
## Lemmas: digit strings and `split(':')`
-/

theorem isDigitCh_ne_colon {c : Char} (h : isDigitCh c = true) : c ≠ ':' := by
  intro e
  subst e
  exact absurd h (by decide)

theorem splitColon_append (a rest : List Char) (h : ∀ c ∈ a, c ≠ ':') :
    splitColon (a ++ ':' :: rest) = a :: splitColon rest := by
  induction a with
  | nil => simp [splitColon]
  | cons c t ih =>
    have hc : ¬(c = ':') := h c (by simp)
    have ht : ∀ x ∈ t, x ≠ ':' := fun x hx => h x (by simp [hx])
    simp only [List.cons_append, splitColon, List.append_eq, if_neg hc, ih ht]

theorem splitColon_no_colon (a : List Char) (h : ∀ c ∈ a, c ≠ ':') :
    splitColon a = [a] := by
  induction a with
  | nil => rfl
  | cons c t ih =>
    have hc : ¬(c = ':') := h c (by simp)
    have ht : ∀ x ∈ t, x ≠ ':' := fun x hx => h x (by simp [hx])
    simp only [splitColon, if_neg hc, ih ht]

theorem jsNumber_digits (a : List Char) (hne : a ≠ [])
    (hd : ∀ c ∈ a, isDigitCh c = true) :
    jsNumber a = some ((digitsVal a : Nat) : Int) := by
  have h1 : a.isEmpty = false := by
    cases a with
    | nil => exact absurd rfl hne
    | cons c t => rfl
  have h2 : a.all isDigitCh = true := List.all_eq_true.mpr hd
  unfold jsNumber
  rw [h1, h2]
  simp

theorem digitsValAux_append (acc : Nat) (l1 l2 : List Char) :
    digitsValAux acc (l1 ++ l2) = digitsValAux (digitsValAux acc l1) l2 := by
  induction l1 generalizing acc with
  | nil => rfl
  | cons c t ih =>
    show digitsValAux (acc * 10 + (c.toNat - 48)) (t ++ l2)
        = digitsValAux (digitsValAux (acc * 10 + (c.toNat - 48)) t) l2
    exact ih _

theorem isDigitCh_digitCh (n : Nat) : isDigitCh (digitCh n) = true := by
  unfold digitCh
  split <;> decide

theorem digitCh_toNat (n : Nat) (h : n < 10) : (digitCh n).toNat = 48 + n := by
  interval_cases n <;> rfl

theorem natCharsAux_succ (fuel n : Nat) :
    natCharsAux (fuel + 1) n =
      if n < 10 then [digitCh n] else natCharsAux fuel (n / 10) ++ [digitCh (n % 10)] := rfl

theorem natCharsAux_fuel (n : Nat) :
    ∀ f1 f2, n < f1 → n < f2 → natCharsAux f1 n = natCharsAux f2 n := by
  induction n using Nat.strong_induction_on with
  | _ n ih =>
    intro f1 f2 h1 h2
    obtain ⟨g1, rfl⟩ : ∃ g, f1 = g + 1 := ⟨f1 - 1, by omega⟩
    obtain ⟨g2, rfl⟩ : ∃ g, f2 = g + 1 := ⟨f2 - 1, by omega⟩
    rw [natCharsAux_succ, natCharsAux_succ]
    by_cases h : n < 10
    · rw [if_pos h, if_pos h]
    · rw [if_neg h, if_neg h]
      have hd : n / 10 < n := Nat.div_lt_self (by omega) (by omega)
      rw [ih (n / 10) hd g1 g2 (by omega) (by omega)]

theorem natChars_eq (n : Nat) :
    natChars n = if n < 10 then [digitCh n] else natChars (n / 10) ++ [digitCh (n % 10)] := by
  by_cases h : n < 10
  · show natCharsAux (n + 1) n = _
    rw [natCharsAux_succ, if_pos h, if_pos h]
  · rw [if_neg h]
    show natCharsAux (n + 1) n = natCharsAux (n / 10 + 1) (n / 10) ++ [digitCh (n % 10)]
    rw [natCharsAux_succ, if_neg h]
    have hd : n / 10 < n := Nat.div_lt_self (by omega) (by omega)
    rw [natCharsAux_fuel (n / 10) n (n / 10 + 1) hd (by omega)]

theorem natChars_ne_nil (n : Nat) : natChars n ≠ [] := by
  rw [natChars_eq]
  split
  · simp
  · simp

theorem natChars_digits (n : Nat) : ∀ c ∈ natChars n, isDigitCh c = true := by
  induction n using Nat.strong_induction_on with
  | _ n ih =>
    rw [natChars_eq]
    split
    · intro c hc
      rw [List.mem_singleton.mp hc]
      exact isDigitCh_digitCh n
    · intro c hc
      rcases List.mem_append.mp hc with h | h
      · exact ih (n / 10) (Nat.div_lt_self (by omega) (by omega)) c h
      · rw [List.mem_singleton.mp h]
        exact isDigitCh_digitCh (n % 10)

theorem digitsValAux_natChars (n : Nat) :
    ∀ acc, digitsValAux acc (natChars n) = acc * 10 ^ (natChars n).length + n := by
  induction n using Nat.strong_induction_on with
  | _ n ih =>
    intro acc
    rw [natChars_eq n]
    by_cases h : n < 10
    · rw [if_pos h]
      have e1 : digitsValAux acc [digitCh n] = acc * 10 + ((digitCh n).toNat - 48) := rfl
      have e2 : ([digitCh n]).length = 1 := rfl
      rw [e1, e2, digitCh_toNat n h, pow_one]
      omega
    · rw [if_neg h]
      have hd : n / 10 < n := Nat.div_lt_self (by omega) (by omega)
      rw [digitsValAux_append, ih (n / 10) hd acc]
      have e1 : digitsValAux (acc * 10 ^ (natChars (n / 10)).length + n / 10) [digitCh (n % 10)]
          = (acc * 10 ^ (natChars (n / 10)).length + n / 10) * 10
            + ((digitCh (n % 10)).toNat - 48) := rfl
      have e2 : (natChars (n / 10) ++ [digitCh (n % 10)]).length
          = (natChars (n / 10)).length + 1 := by simp
      rw [e1, e2, digitCh_toNat (n % 10) (by omega), pow_succ]
      have e3 : acc * (10 ^ (natChars (n / 10)).length * 10)
          = acc * 10 ^ (natChars (n / 10)).length * 10 := by ring
      rw [e3]
      generalize acc * 10 ^ (natChars (n / 10)).length = Q
      omega

theorem digitsVal_natChars (n : Nat) : digitsVal (natChars n) = n := by
  unfold digitsVal
  rw [digitsValAux_natChars n 0]
  simp

theorem pad2_digits (l : List Char) (h : ∀ c ∈ l, isDigitCh c = true) :
    ∀ c ∈ pad2 l, isDigitCh c = true := by
  unfold pad2
  split
  · exact h
  · intro c hc
    rcases List.mem_append.mp hc with hr | hl
    · rw [List.eq_of_mem_replicate hr]
      decide
    · exact h c hl

theorem pad2_ne_nil (l : List Char) (h : l ≠ []) : pad2 l ≠ [] := by
  unfold pad2
  split
  · exact h
  · simp [h]

theorem digitsVal_replicate_zero (k : Nat) (l : List Char) :
    digitsValAux 0 (List.replicate k '0' ++ l) = digitsValAux 0 l := by
  induction k with
  | zero => rfl
  | succ m ih => exact ih

theorem digitsVal_pad2 (l : List Char) : digitsVal (pad2 l) = digitsVal l := by
  unfold pad2 digitsVal
  split
  · rfl
  · exact digitsVal_replicate_zero _ l

theorem pad2_no_colon (l : List Char) (h : ∀ c ∈ l, isDigitCh c = true) :
    ∀ c ∈ pad2 l, c ≠ ':' := fun c hc => isDigitCh_ne_colon (pad2_digits l h c hc)

theorem digits_pair_mem (a b : Char) (ha : isDigitCh a = true) (hb : isDigitCh b = true) :
    ∀ c ∈ [a, b], isDigitCh c = true := by
  intro c hc
  rcases List.mem_cons.mp hc with rfl | hc2
  · exact ha
  · rw [List.mem_singleton.mp hc2]
    exact hb

theorem no_colon_pair (a b : Char) (ha : isDigitCh a = true) (hb : isDigitCh b = true) :
    ∀ c ∈ [a, b], c ≠ ':' :=
  fun c hc => isDigitCh_ne_colon (digits_pair_mem a b ha hb c hc)

theorem parseTimestampL_two (x y : List Char)
    (hx : ∀ c ∈ x, c ≠ ':') (hy : ∀ c ∈ y, c ≠ ':') :
    parseTimestampL (x ++ (':' :: y))
      = match jsNumber x, jsNumber y with
        | some m, some s => some (m * 60 + s)
        | _, _ => none := by
  unfold parseTimestampL
  rw [splitColon_append x y hx, splitColon_no_colon y hy]
  rfl

theorem parseTimestampL_three (x y z : List Char)
    (hx : ∀ c ∈ x, c ≠ ':') (hy : ∀ c ∈ y, c ≠ ':') (hz : ∀ c ∈ z, c ≠ ':') :
    parseTimestampL (x ++ (':' :: (y ++ (':' :: z))))
      = match jsNumber x, jsNumber y, jsNumber z with
        | some h, some m, some s => some (h * 3600 + m * 60 + s)
        | _, _, _ => none := by
  unfold parseTimestampL
  rw [splitColon_append x (y ++ (':' :: z)) hx, splitColon_append y z hy,
      splitColon_no_colon z hz]
  rfl

theorem parse_core_some (l : List Char) (h : IsCoreChars l) :
    ∃ n : Int, parseTimestampL l = some n ∧ 0 ≤ n := by
  rcases h with ⟨m, a, b, hmne, hmd, ha, hb, rfl⟩ |
    ⟨hh, m, a, b, hhne, hhd, hmne, hmd, ha, hb, rfl⟩
  · rw [parseTimestampL_two m [a, b]
      (fun c hc => isDigitCh_ne_colon (hmd c hc)) (no_colon_pair a b ha hb)]
    rw [jsNumber_digits m hmne hmd,
        jsNumber_digits [a, b] (by simp) (digits_pair_mem a b ha hb)]
    exact ⟨_, rfl, by positivity⟩
  · rw [parseTimestampL_three hh m [a, b]
      (fun c hc => isDigitCh_ne_colon (hhd c hc))
      (fun c hc => isDigitCh_ne_colon (hmd c hc)) (no_colon_pair a b ha hb)]
    rw [jsNumber_digits hh hhne hhd, jsNumber_digits m hmne hmd,
        jsNumber_digits [a, b] (by simp) (digits_pair_mem a b ha hb)]
    exact ⟨_, rfl, by positivity⟩

theorem two_digit_pad (s : Nat) (h : s < 100) :
    ∃ a b, isDigitCh a = true ∧ isDigitCh b = true ∧ pad2 (natChars s) = [a, b] := by
  by_cases h1 : s < 10
  · refine ⟨'0', digitCh s, by decide, isDigitCh_digitCh s, ?_⟩
    rw [natChars_eq s, if_pos h1]
    rfl
  · refine ⟨digitCh (s / 10), digitCh (s % 10), isDigitCh_digitCh _, isDigitCh_digitCh _, ?_⟩
    rw [natChars_eq s, if_neg h1, natChars_eq (s / 10), if_pos (by omega)]
    rfl

/-- `formatTimestamp` with its `let` chain reduced. -/
theorem formatTimestamp_eq (ms : Nat) :
    formatTimestamp ms = if ms / 1000 / 3600 > 0 then
      pad2 (natChars (ms / 1000 / 3600)) ++
        (':' :: (pad2 (natChars (ms / 1000 % 3600 / 60)) ++
          (':' :: pad2 (natChars (ms / 1000 % 60)))))
    else
      pad2 (natChars (ms / 1000 % 3600 / 60)) ++ (':' :: pad2 (natChars (ms / 1000 % 60))) :=
  rfl

theorem format_val (ms : Nat) :
    parseTimestampL (formatTimestamp ms) = some ((ms / 1000 : Nat) : Int) := by
  rw [formatTimestamp_eq ms]
  by_cases h : ms / 1000 / 3600 > 0
  · rw [if_pos h]
    rw [parseTimestampL_three _ _ _
      (pad2_no_colon _ (natChars_digits _)) (pad2_no_colon _ (natChars_digits _))
      (pad2_no_colon _ (natChars_digits _))]
    rw [jsNumber_digits _ (pad2_ne_nil _ (natChars_ne_nil _)) (pad2_digits _ (natChars_digits _)),
        jsNumber_digits _ (pad2_ne_nil _ (natChars_ne_nil _)) (pad2_digits _ (natChars_digits _)),
        jsNumber_digits _ (pad2_ne_nil _ (natChars_ne_nil _)) (pad2_digits _ (natChars_digits _))]
    rw [digitsVal_pad2, digitsVal_natChars, digitsVal_pad2, digitsVal_natChars,
        digitsVal_pad2, digitsVal_natChars]
    show some _ = some _
    congr 1
    push_cast
    omega
  · rw [if_neg h]
    rw [parseTimestampL_two _ _
      (pad2_no_colon _ (natChars_digits _)) (pad2_no_colon _ (natChars_digits _))]
    rw [jsNumber_digits _ (pad2_ne_nil _ (natChars_ne_nil _)) (pad2_digits _ (natChars_digits _)),
        jsNumber_digits _ (pad2_ne_nil _ (natChars_ne_nil _)) (pad2_digits _ (natChars_digits _))]
    rw [digitsVal_pad2, digitsVal_natChars, digitsVal_pad2, digitsVal_natChars]
    show some _ = some _
    congr 1
    push_cast
    omega

theorem format_core (ms : Nat) : IsCoreChars (formatTimestamp ms) := by
  rw [formatTimestamp_eq ms]
  by_cases h : ms / 1000 / 3600 > 0
  · rw [if_pos h]
    obtain ⟨a, b, ha, hb, hab⟩ := two_digit_pad (ms / 1000 % 60) (by omega)
    rw [hab]
    exact Or.inr ⟨pad2 (natChars (ms / 1000 / 3600)), pad2 (natChars (ms / 1000 % 3600 / 60)),
      a, b, pad2_ne_nil _ (natChars_ne_nil _), pad2_digits _ (natChars_digits _),
      pad2_ne_nil _ (natChars_ne_nil _), pad2_digits _ (natChars_digits _), ha, hb, rfl⟩
  · rw [if_neg h]
    obtain ⟨a, b, ha, hb, hab⟩ := two_digit_pad (ms / 1000 % 60) (by omega)
    rw [hab]
    exact Or.inl ⟨pad2 (natChars (ms / 1000 % 3600 / 60)), a, b,
      pad2_ne_nil _ (natChars_ne_nil _), pad2_digits _ (natChars_digits _), ha, hb, rfl⟩

/-- C7: `parseTimestamp` splits its input on `':'`, maps each part to an
integer, and returns `h*3600 + m*60 + s` for a 3-part input and `m*60 + s`
for a 2-part input; in particular `parseTimestamp "1:02:03" = 3723`,
`parseTimestamp "02:03" = 123` and `parseTimestamp "00:00" = 0`, and for
every literal matching the grammar the result is defined and nonnegative
(determinism is inherent: the embedding is a pure function of the literal,
exactly as the source computes it). -/
theorem claim_C7_parseTimestamp :
    parseTimestampL "1:02:03".data = some 3723 ∧
    parseTimestampL "02:03".data = some 123 ∧
    parseTimestampL "00:00".data = some 0 ∧
    ∀ l : List Char, IsCoreChars l → ∃ n : Int, parseTimestampL l = some n ∧ 0 ≤ n :=
  ⟨by decide, by decide, by decide, parse_core_some⟩

theorem claim_C7_parseTimestamp_witness :
    ∃ n : Int, parseTimestampL "02:10".data = some n ∧ 0 ≤ n :=
  claim_C7_parseTimestamp.2.2.2 "02:10".data
    (Or.inl ⟨['0', '2'], '1', '0', by decide, by decide, by decide, by decide, by decide⟩)

/-- C8: round-trip law on the numeric value — for every literal `L` of the
timestamp grammar, formatting the parsed value (in milliseconds) back to a
timestamp string preserves the number of seconds:
`parseTimestamp (formatTimestamp (1000 * parseTimestamp L)) = parseTimestamp L`. -/
theorem claim_C8_roundtrip (l : List Char) (n : Int)
    (hg : IsCoreChars l) (hp : parseTimestampL l = some n) :
    parseTimestampL (formatTimestamp (1000 * n.toNat)) = some n := by
  obtain ⟨n2, hp2, hn2⟩ := parse_core_some l hg
  rw [hp] at hp2
  obtain rfl : n = n2 := by injection hp2
  rw [format_val (1000 * n.toNat)]
  congr 1
  rw [Nat.mul_div_cancel_left _ (by omega : 0 < 1000)]
  exact Int.toNat_of_nonneg hn2

theorem claim_C8_roundtrip_witness :
    parseTimestampL (formatTimestamp (1000 * (130 : Int).toNat)) = some 130 :=
  claim_C8_roundtrip "02:10".data 130
    (Or.inl ⟨['0', '2'], '1', '0', by decide, by decide, by decide, by decide, by decide⟩)
    (by decide)

/-- C10: for every nonnegative integer `ms`, `formatTimestamp ms` matches the
timestamp grammar (seconds exactly two digits; minutes exactly two digits
when an hour component is present), and `parseTimestamp` maps it back to
`ms / 1000` exactly — formatting then parsing loses only the sub-second
remainder. -/
theorem claim_C10_format_parses_back :
    ∀ ms : Nat,
      IsCoreChars (formatTimestamp ms) ∧
      parseTimestampL (formatTimestamp ms) = some ((ms / 1000 : Nat) : Int) ∧
      (∃ p a b, isDigitCh a = true ∧ isDigitCh b = true ∧
        formatTimestamp ms = p ++ (':' :: [a, b])) ∧
      (3600 ≤ ms / 1000 →
        ∃ hp x y a b, hp ≠ [] ∧ (∀ c ∈ hp, isDigitCh c = true) ∧
          isDigitCh x = true ∧ isDigitCh y = true ∧
          isDigitCh a = true ∧ isDigitCh b = true ∧
          formatTimestamp ms = hp ++ (':' :: ([x, y] ++ (':' :: [a, b])))) := by
  intro ms
  refine ⟨format_core ms, format_val ms, ?_, ?_⟩
  · rw [formatTimestamp_eq ms]
    obtain ⟨a, b, ha, hb, hab⟩ := two_digit_pad (ms / 1000 % 60) (by omega)
    by_cases h : ms / 1000 / 3600 > 0
    · rw [if_pos h, hab]
      exact ⟨pad2 (natChars (ms / 1000 / 3600)) ++
        (':' :: pad2 (natChars (ms / 1000 % 3600 / 60))), a, b, ha, hb, by
          simp [List.append_assoc]⟩
    · rw [if_neg h, hab]
      exact ⟨pad2 (natChars (ms / 1000 % 3600 / 60)), a, b, ha, hb, rfl⟩
  · intro h3600
    have h : ms / 1000 / 3600 > 0 := by omega
    rw [formatTimestamp_eq ms, if_pos h]
    obtain ⟨a, b, ha, hb, hab⟩ := two_digit_pad (ms / 1000 % 60) (by omega)
    obtain ⟨x, y, hx, hy, hxy⟩ := two_digit_pad (ms / 1000 % 3600 / 60) (by omega)
    rw [hab, hxy]
    exact ⟨pad2 (natChars (ms / 1000 / 3600)), x, y, a, b,
      pad2_ne_nil _ (natChars_ne_nil _), pad2_digits _ (natChars_digits _),
      hx, hy, ha, hb, rfl⟩

theorem claim_C10_format_parses_back_witness :
    3600 ≤ 3723000 / 1000 ∧
    (∃ hp x y a b, hp ≠ [] ∧ (∀ c ∈ hp, isDigitCh c = true) ∧
      isDigitCh x = true ∧ isDigitCh y = true ∧
      isDigitCh a = true ∧ isDigitCh b = true ∧
      formatTimestamp 3723000 = hp ++ (':' :: ([x, y] ++ (':' :: [a, b])))) :=
  ⟨by omega, (claim_C10_format_parses_back 3723000).2.2.2 (by omega)⟩

/-!
## Lemmas: the recognizer matches exactly the bold-optional, whitespace-
terminated timestamp grammar
-/

theorem ws_not_digit (w : Char) (h : isWsCh w = true) : isDigitCh w = false := by
  have h2 : w.toNat = 32 ∨ (9 ≤ w.toNat ∧ w.toNat ≤ 13) := by
    simpa [isWsCh] using h
  simp only [isDigitCh, Bool.and_eq_false_iff, decide_eq_false_iff_not]
  omega

theorem ws_ne_star (w : Char) (h : isWsCh w = true) : w ≠ '*' := by
  intro e
  subst e
  exact absurd h (by decide)

theorem tailLen_sound (r : List Char) (k : Nat) (h : tailLen r = some k) :
    (∃ w v, isWsCh w = true ∧ r = w :: v ∧ k = 0) ∨
    (∃ w v, isWsCh w = true ∧ r = '*' :: ('*' :: (w :: v)) ∧ k = 2) := by
  match r with
  | [] => exact absurd h (by simp [tailLen])
  | [c1] =>
    simp only [tailLen] at h
    by_cases h1 : c1 = '*'
    · rw [if_pos h1] at h
      exact absurd h (by simp)
    · rw [if_neg h1] at h
      by_cases h2 : isWsCh c1
      · rw [if_pos h2] at h
        exact Or.inl ⟨c1, [], h2, rfl, by injection h with hk; omega⟩
      · rw [if_neg h2] at h
        exact absurd h (by simp)
  | [c1, c2] =>
    simp only [tailLen] at h
    by_cases h1 : c1 = '*'
    · rw [if_pos h1] at h
      exact absurd h (by simp)
    · rw [if_neg h1] at h
      by_cases h2 : isWsCh c1
      · rw [if_pos h2] at h
        exact Or.inl ⟨c1, [c2], h2, rfl, by injection h with hk; omega⟩
      · rw [if_neg h2] at h
        exact absurd h (by simp)
  | c1 :: c2 :: w :: v =>
    simp only [tailLen] at h
    by_cases h1 : c1 = '*' ∧ c2 = '*'
    · rw [if_pos (by simp [h1.1, h1.2])] at h
      by_cases h2 : isWsCh w
      · rw [if_pos h2] at h
        exact Or.inr ⟨w, v, h2, by rw [h1.1, h1.2], by injection h with hk; omega⟩
      · rw [if_neg h2] at h
        exact absurd h (by simp)
    · have hcond : (decide (c1 = '*') && decide (c2 = '*')) = false := by
        rcases Decidable.not_and_iff_or_not.mp h1 with hc | hc <;> simp [hc]
      rw [if_neg (by simp [hcond]  )] at h
      by_cases h2 : isWsCh c1
      · rw [if_pos h2] at h
        exact Or.inl ⟨c1, c2 :: w :: v, h2, rfl, by injection h with hk; omega⟩
      · rw [if_neg h2] at h
        exact absurd h (by simp)

theorem tailLen_ws (w : Char) (v : List Char) (h : isWsCh w = true) :
    tailLen (w :: v) = some 0 := by
  have hne : ¬(w = '*') := ws_ne_star w h
  match v with
  | [] => simp [tailLen, hne, h]
  | [c2] => simp [tailLen, hne, h]
  | c2 :: c3 :: v2 => simp [tailLen, hne, h]

theorem tailLen_stars (w : Char) (v : List Char) (h : isWsCh w = true) :
    tailLen ('*' :: ('*' :: (w :: v))) = some 2 := by
  simp [tailLen, h]

theorem takeWhile_all_append (p : Char → Bool) (m : List Char) (x : Char) (r : List Char)
    (hm : ∀ c ∈ m, p c = true) (hx : p x = false) :
    (m ++ x :: r).takeWhile p = m := by
  induction m with
  | nil => simp [List.takeWhile_cons, hx]
  | cons c t ih =>
    have hc : p c = true := hm c (by simp)
    simp only [List.cons_append, List.takeWhile_cons, hc, if_true]
    rw [ih (fun d hd => hm d (by simp [hd]))]

theorem dropWhile_all_append (p : Char → Bool) (m : List Char) (x : Char) (r : List Char)
    (hm : ∀ c ∈ m, p c = true) (hx : p x = false) :
    (m ++ x :: r).dropWhile p = x :: r := by
  induction m with
  | nil => simp [List.dropWhile_cons, hx]
  | cons c t ih =>
    have hc : p c = true := hm c (by simp)
    simp only [List.cons_append, List.dropWhile_cons, hc, if_true]
    exact ih (fun d hd => hm d (by simp [hd]))

theorem coreThen_sound (l : List Char) (n : Nat) (cap : List Char)
    (h : coreThen l = some (n, cap)) :
    IsCoreChars cap ∧ ∃ post w v, (post = [] ∨ post = ['*', '*']) ∧ isWsCh w = true ∧
      l = cap ++ (post ++ (w :: v)) := by
  have hl : l.takeWhile isDigitCh ++ l.dropWhile isDigitCh = l :=
    List.takeWhile_append_dropWhile isDigitCh l
  have hd1 : ∀ c ∈ l.takeWhile isDigitCh, isDigitCh c = true :=
    fun c hc => List.mem_takeWhile_imp hc
  simp only [coreThen] at h
  split at h
  · exact absurd h (by simp)
  next hne =>
    have hd1ne : l.takeWhile isDigitCh ≠ [] := by
      simpa [List.isEmpty_iff] using hne
    split at h
    case _ r2 heq1 =>
      have hr2 : ∀ c ∈ r2.takeWhile isDigitCh, isDigitCh c = true :=
        fun c hc => List.mem_takeWhile_imp hc
      have hr2l : r2.takeWhile isDigitCh ++ r2.dropWhile isDigitCh = r2 :=
        List.takeWhile_append_dropWhile isDigitCh r2
      split at h
      case _ x heq2 =>
        obtain rfl : x = (n, cap) := by injection h
        split at heq2
        · exact absurd heq2 (by simp)
        next hne3 =>
          have hd2ne : r2.takeWhile isDigitCh ≠ [] := by
            simpa [List.isEmpty_iff] using hne3
          split at heq2
          next a b r5 heq3 =>
            split at heq2
            next hab =>
              have hdig : isDigitCh a = true ∧ isDigitCh b = true := by simpa using hab
              split at heq2
              next k heq4 =>
                injection heq2 with heq5
                injection heq5 with hn hcap
                subst hn
                subst hcap
                refine ⟨Or.inr ⟨l.takeWhile isDigitCh, r2.takeWhile isDigitCh, a, b,
                  hd1ne, hd1, hd2ne, hr2, hdig.1, hdig.2, rfl⟩, ?_⟩
                rcases tailLen_sound r5 _ heq4 with ⟨w, v, hw, rfl, hk⟩ | ⟨w, v, hw, rfl, hk⟩
                · refine ⟨[], w, v, Or.inl rfl, hw, ?_⟩
                  conv_lhs => rw [← hl, heq1, ← hr2l, heq3]
                  simp
                · refine ⟨['*', '*'], w, v, Or.inr rfl, hw, ?_⟩
                  conv_lhs => rw [← hl, heq1, ← hr2l, heq3]
                  simp
              next heq4 => exact absurd heq2 (by simp)
            next hab => exact absurd heq2 (by simp)
          next => exact absurd heq2 (by simp)
      case _ heq2 =>
        split at h
        next _rr a b r5 =>
          split at h
          next hab =>
            have hdig : isDigitCh a = true ∧ isDigitCh b = true := by simpa using hab
            split at h
            next k heq4 =>
              injection h with heq5
              injection heq5 with hn hcap
              subst hn
              subst hcap
              refine ⟨Or.inl ⟨l.takeWhile isDigitCh, a, b, hd1ne, hd1,
                hdig.1, hdig.2, rfl⟩, ?_⟩
              rcases tailLen_sound r5 _ heq4 with ⟨w, v, hw, rfl, hk⟩ | ⟨w, v, hw, rfl, hk⟩
              · refine ⟨[], w, v, Or.inl rfl, hw, ?_⟩
                conv_lhs => rw [← hl, heq1]
                simp
              · refine ⟨['*', '*'], w, v, Or.inr rfl, hw, ?_⟩
                conv_lhs => rw [← hl, heq1]
                simp
            next heq4 => exact absurd h (by simp)
          next hab => exact absurd h (by simp)
        next => exact absurd h (by simp)
    case _ => exact absurd h (by simp)

theorem ws_ne_colon (w : Char) (h : isWsCh w = true) : w ≠ ':' := by
  intro e
  subst e
  exact absurd h (by decide)

/-- The language the scanner of `ALL_TIMESTAMPS_PATTERN` accepts: some
position carries a core literal, each side of which may independently carry
a `**` delimiter, followed — after the optional closing delimiter — by a
whitespace character.  A literal at the very end of the text (no following
whitespace) is not matched. -/
def AmendedGrammarMatch (l : List Char) : Prop :=
  ∃ u core post w v, IsCoreChars core ∧ (post = [] ∨ post = ['*', '*']) ∧
    isWsCh w = true ∧ l = u ++ (core ++ (post ++ (w :: v)))

/-- The recognizer language as claim C6 words it: a core literal, optionally
surrounded by a *pair* of bold delimiters, followed by whitespace *or the
end of the scanned text*.  (Modelled from the claim's words, for comparison
with the embedded recognizer.) -/
def ClaimedGrammarMatch (l : List Char) : Prop :=
  ∃ u g v, (∃ core, IsCoreChars core ∧
      (g = core ∨ g = '*' :: ('*' :: (core ++ ['*', '*'])))) ∧
    l = u ++ (g ++ v) ∧ (v = [] ∨ ∃ w v2, v = w :: v2 ∧ isWsCh w = true)

theorem tryAt_sound (l : List Char) (n : Nat) (cap : List Char)
    (h : tryAt l = some (n, cap)) :
    IsCoreChars cap ∧ ∃ u post w v, (post = [] ∨ post = ['*', '*']) ∧ isWsCh w = true ∧
      l = u ++ (cap ++ (post ++ (w :: v))) := by
  unfold tryAt at h
  split at h
  next r =>
    split at h
    next n2 cap2 heq =>
      injection h with h2
      injection h2 with hn hcap
      subst hcap
      obtain ⟨hcore, post, w, v, hpost, hw, hr⟩ := coreThen_sound r n2 cap2 heq
      exact ⟨hcore, ['*', '*'], post, w, v, hpost, hw, by simp [hr]⟩
    next heq =>
      obtain ⟨hcore, post, w, v, hpost, hw, hr⟩ := coreThen_sound _ n cap h
      exact ⟨hcore, [], post, w, v, hpost, hw, by simpa using hr⟩
  next =>
    obtain ⟨hcore, post, w, v, hpost, hw, hr⟩ := coreThen_sound _ n cap h
    exact ⟨hcore, [], post, w, v, hpost, hw, by simpa using hr⟩

theorem scanFrom_sound (l : List Char) (h : (scanFrom l).isSome = true) :
    AmendedGrammarMatch l := by
  induction l with
  | nil => simp [scanFrom] at h
  | cons c t ih =>
    cases htry : tryAt (c :: t) with
    | some p =>
      obtain ⟨n2, cap2⟩ := p
      obtain ⟨hcore, u, post, w, v, hpost, hw, hl⟩ := tryAt_sound (c :: t) n2 cap2 htry
      exact ⟨u, cap2, post, w, v, hcore, hpost, hw, hl⟩
    | none =>
      have h2 : (scanFrom t).isSome = true := by
        simp only [scanFrom, htry] at h
        simpa using h
      obtain ⟨u, core, post, w, v, hc, hp, hw, hl⟩ := ih h2
      exact ⟨c :: u, core, post, w, v, hc, hp, hw, by simp [hl]⟩

theorem isEmpty_false_of_ne_nil {l : List Char} (h : l ≠ []) : l.isEmpty = false := by
  cases l with
  | nil => exact absurd rfl h
  | cons c t => rfl

theorem coreThen_complete (core post : List Char) (w : Char) (v : List Char)
    (hc : IsCoreChars core) (hpost : post = [] ∨ post = ['*', '*'])
    (hw : isWsCh w = true) :
    (coreThen (core ++ (post ++ (w :: v)))).isSome = true := by
  obtain ⟨x0, X2, hx0d, hx0c, hXeq, k0, htail⟩ :
      ∃ x0 X2, isDigitCh x0 = false ∧ ¬(x0 = ':') ∧ post ++ (w :: v) = x0 :: X2 ∧
        ∃ k, tailLen (x0 :: X2) = some k := by
    rcases hpost with rfl | rfl
    · exact ⟨w, v, ws_not_digit w hw, ws_ne_colon w hw, by simp, 0, tailLen_ws w v hw⟩
    · exact ⟨'*', '*' :: (w :: v), by decide, by decide, by simp, 2, tailLen_stars w v hw⟩
  rw [hXeq]
  rcases hc with ⟨m, a, b, hmne, hmd, ha, hb, rfl⟩ |
    ⟨hh, m, a, b, hhne, hhd, hmne, hmd, ha, hb, rfl⟩
  · have hshape : (m ++ (':' :: [a, b])) ++ (x0 :: X2)
        = m ++ (':' :: (a :: (b :: (x0 :: X2)))) := by simp
    rw [hshape]
    have ht2 : (a :: (b :: (x0 :: X2))).takeWhile isDigitCh = [a, b] := by
      simp [List.takeWhile_cons, ha, hb, hx0d]
    have hd2 : (a :: (b :: (x0 :: X2))).dropWhile isDigitCh = x0 :: X2 := by
      simp [List.dropWhile_cons, ha, hb, hx0d]
    simp only [coreThen,
      takeWhile_all_append isDigitCh m ':' (a :: (b :: (x0 :: X2))) hmd (by decide),
      dropWhile_all_append isDigitCh m ':' (a :: (b :: (x0 :: X2))) hmd (by decide),
      isEmpty_false_of_ne_nil hmne, ht2, hd2, ha, hb, htail]
    split <;> simp_all
  · have hshape : (hh ++ (':' :: (m ++ (':' :: [a, b])))) ++ (x0 :: X2)
        = hh ++ (':' :: (m ++ (':' :: (a :: (b :: (x0 :: X2)))))) := by simp
    rw [hshape]
    simp only [coreThen,
      takeWhile_all_append isDigitCh hh ':' (m ++ (':' :: (a :: (b :: (x0 :: X2))))) hhd
        (by decide),
      dropWhile_all_append isDigitCh hh ':' (m ++ (':' :: (a :: (b :: (x0 :: X2))))) hhd
        (by decide),
      takeWhile_all_append isDigitCh m ':' (a :: (b :: (x0 :: X2))) hmd (by decide),
      dropWhile_all_append isDigitCh m ':' (a :: (b :: (x0 :: X2))) hmd (by decide),
      isEmpty_false_of_ne_nil hhne, isEmpty_false_of_ne_nil hmne, ha, hb, htail]
    simp

theorem tryAt_complete (l : List Char) (h : (coreThen l).isSome = true) :
    (tryAt l).isSome = true := by
  unfold tryAt
  split
  next r =>
    cases hcr : coreThen r with
    | some p => simp [hcr]
    | none => simpa [hcr] using h
  next => exact h

theorem scanFrom_isSome_of_tryAt (l : List Char) (h : (tryAt l).isSome = true) :
    (scanFrom l).isSome = true := by
  cases l with
  | nil => simp [tryAt, coreThen] at h
  | cons c t =>
    cases htry : tryAt (c :: t) with
    | some p => simp [scanFrom, htry]
    | none =>
      rw [htry] at h
      simp at h

theorem scanFrom_append (u l2 : List Char) (h : (scanFrom l2).isSome = true) :
    (scanFrom (u ++ l2)).isSome = true := by
  induction u with
  | nil => simpa using h
  | cons c t ih =>
    cases htry : tryAt (c :: (t ++ l2)) with
    | some p => simp [scanFrom, htry]
    | none => simp [scanFrom, htry, ih]

theorem timestampCaptures_iff (l : List Char) :
    timestampCaptures l ≠ [] ↔ (scanFrom l).isSome = true := by
  unfold timestampCaptures
  cases hs : scanFrom l with
  | none => simp [scanCaptures, hs]
  | some x =>
    obtain ⟨o, n, cap⟩ := x
    simp [scanCaptures, hs]

/-- C6 (amended): the recognizer finds a match in a text exactly when the
text contains a grammar literal (`m+:ss` or `h+:mm:ss`, seconds exactly two
digits), each side of which may independently carry a `**` delimiter, with a
whitespace character immediately after the literal (and after the optional
closing `**`).  A literal at the very end of the scanned text — not followed
by whitespace — is not matched, and the two bold delimiters are optional
independently of each other, not as a pair. -/
theorem claim_C6_recognizer_amended (l : List Char) :
    timestampCaptures l ≠ [] ↔ AmendedGrammarMatch l := by
  rw [timestampCaptures_iff]
  constructor
  · exact scanFrom_sound l
  · rintro ⟨u, core, post, w, v, hc, hp, hw, rfl⟩
    exact scanFrom_append u _ (scanFrom_isSome_of_tryAt _
      (tryAt_complete _ (coreThen_complete core post w v hc hp hw)))

/-- C6 counterexample: the claim's grammar accepts `"02:10"` at the end of
the scanned text (`ClaimedGrammarMatch`), but the recognizer produces no
match for the text `"02:10"`: the lookahead `(?=\s)` requires a following
whitespace character and fails at the end of the input. -/
theorem claim_C6_counterexample :
    ¬ (timestampCaptures "02:10".data ≠ [] ↔ ClaimedGrammarMatch "02:10".data) := by
  intro hiff
  have hclaimed : ClaimedGrammarMatch "02:10".data :=
    ⟨[], "02:10".data, [],
      ⟨"02:10".data,
        Or.inl ⟨['0', '2'], '1', '0', by decide, by decide, by decide, by decide, by decide⟩,
        Or.inl rfl⟩,
      by simp, Or.inl rfl⟩
  exact (hiff.mpr hclaimed) (by decide)

/-!
## Lemmas: the Augmentation Pass on settled states
-/

theorem processLiteral_noop (tree : Dom) (k : Nat) (bcId : Nat) (ts : List Char)
    (h : ∀ bc, getById tree bcId = some bc → collectOccNode false ts bc = []) :
    processLiteral bcId (tree, k) ts = (tree, k) := by
  cases hg : getById tree bcId with
  | none => simp [processLiteral, hg]
  | some bc => simp [processLiteral, hg, h bc hg]

theorem processContainer_noop (tree : Dom) (k : Nat) (cid : Nat)
    (h : containerSettled tree cid = true) :
    processContainer (tree, k) cid = (tree, k) := by
  cases hg : getById tree cid with
  | none => simp [processContainer, hg]
  | some cont =>
    cases hf : findBlockContent cont with
    | none => simp [processContainer, hg, hf]
    | some bcId =>
      cases hb : getById tree bcId with
      | none => simp [processContainer, hg, hf, hb]
      | some bc =>
        simp only [containerSettled, hg, hf, hb] at h
        have hall : ∀ ts2 ∈ dedupeKeepFirst (timestampCaptures (textContentD bc)),
            collectOccNode false ts2 bc = [] := by
          intro ts2 hts2
          have := List.all_eq_true.mp h ts2 hts2
          simpa [List.isEmpty_iff] using this
        have hfold : ∀ (L : List (List Char)), (∀ ts2 ∈ L, collectOccNode false ts2 bc = []) →
            ∀ k2, L.foldl (processLiteral bcId) (tree, k2) = (tree, k2) := by
          intro L
          induction L with
          | nil => intro hL k2; rfl
          | cons t2 t ih =>
            intro hL k2
            rw [List.foldl_cons, processLiteral_noop tree k2 bcId t2
              (fun bc2 hbc2 => by
                rw [hb] at hbc2
                injection hbc2 with hbc3
                rw [← hbc3]
                exact hL t2 (by simp))]
            exact ih (fun x hx => hL x (by simp [hx])) k2
        simp only [processContainer, hg, hf, hb]
        split
        · rfl
        · exact hfold _ hall k

/-- A pass over a tree in which every occurrence of every matched literal of
every container already sits under a marker changes nothing. -/
theorem pass_noop (d : Dom) (h : noPendingWork d = true) : addTimestampButtons d = d := by
  unfold addTimestampButtons
  have hall : ∀ c ∈ collectContainers d, containerSettled d c = true := by
    simpa [noPendingWork, List.all_eq_true] using h
  have hs : ∀ (cs : List Nat), (∀ c ∈ cs, containerSettled d c = true) →
      ∀ k, cs.foldl processContainer (d, k) = (d, k) := by
    intro cs
    induction cs with
    | nil => intro hcs k; rfl
    | cons c t ih =>
      intro hcs k
      rw [List.foldl_cons, processContainer_noop d k c (hcs c (by simp))]
      exact ih (fun x hx => hcs x (by simp [hx])) k
  rw [hs _ hall _]

/-- C1 (amended): the Augmentation Pass is idempotent whenever the first
pass leaves no unmarked occurrence of any matched literal — equivalently, a
pass that finds nothing left to wrap is a no-op, so
`pass (pass d) = pass d` holds exactly when `pass d` is settled.  (This can
fail when one text node holds two occurrences of the same literal: the pass
wraps only the first occurrence per node per pass — see the
counterexample.) -/
theorem claim_C1_pass_idempotent_on_settled (d : Dom)
    (h : noPendingWork (addTimestampButtons d) = true) :
    addTimestampButtons (addTimestampButtons d) = addTimestampButtons d :=
  pass_noop (addTimestampButtons d) h

/-- A container whose single text node holds one timestamp occurrence. -/
def c1doc : Dom :=
  Dom.elem 0 "div" [] [] none
    [Dom.elem 1 "div" ["roam-block-container"] [] none
      [Dom.elem 2 "div" ["rm-block-text"] [] none
        [Dom.text 3 "02:10 hi".data]]]

theorem claim_C1_pass_idempotent_on_settled_witness :
    noPendingWork (addTimestampButtons c1doc) = true ∧
    addTimestampButtons (addTimestampButtons c1doc) = addTimestampButtons c1doc :=
  ⟨by decide, claim_C1_pass_idempotent_on_settled c1doc (by decide)⟩

/-- The container of the C5 example: a single text node holding the same
literal twice. -/
def c5doc : Dom :=
  Dom.elem 0 "div" [] [] none
    [Dom.elem 1 "div" ["roam-block-container"] [] none
      [Dom.elem 2 "div" ["rm-block-text"] [] none
        [Dom.text 3 "**02:10** hello **02:10** world".data]]]

/-- C1 counterexample: on the C5 example state the second pass wraps the
occurrence the first pass left behind, so `pass (pass s) ≠ pass s` — the
pass is not idempotent on all DOM states. -/
theorem claim_C1_counterexample :
    addTimestampButtons (addTimestampButtons c5doc) ≠ addTimestampButtons c5doc := by
  intro h
  exact absurd (congrArg markerCountD h) (by decide)

/-- C5 counterexample: for the container whose blockContent is the single
text node `"**02:10** hello **02:10** world"`, one Augmentation Pass
produces only ONE marker, not the two the claim states: processing
re-derives `currentIdx` with `indexOf` from position 0 (index.ts:560), so
the entry recorded for the second occurrence rewraps the first occurrence,
detaching the node, and the remaining entry dereferences the detached node
(a no-op). -/
theorem claim_C5_counterexample :
    markerCountD (addTimestampButtons c5doc) = 1 ∧
    ¬ markerCountD (addTimestampButtons c5doc) = 2 :=
  ⟨by decide, by decide⟩

/-- C5 (amended): a single pass wraps only the first unmarked occurrence of
a literal per text node; the next pass (as the Mutation Watcher triggers
passes repeatedly) wraps the remaining occurrence.  After two passes over
the example container both occurrences are wrapped: two markers with
distinct node ids (distinct DOM positions), each carrying the literal
`"02:10"` and a click handler seeking to 130 seconds. -/
theorem claim_C5_first_occurrence_per_pass :
    markerCountD (addTimestampButtons c5doc) = 1 ∧
    markerCountD (addTimestampButtons (addTimestampButtons c5doc)) = 2 ∧
    (collectMarkers (addTimestampButtons (addTimestampButtons c5doc))).map
        (fun x => (x.2.1, x.2.2))
      = [("02:10".data, some 130), ("02:10".data, some 130)] ∧
    ((collectMarkers (addTimestampButtons (addTimestampButtons c5doc))).map
        (fun x => x.1)).Nodup :=
  ⟨by decide, by decide, by decide, by decide⟩

/-!
## Lemmas: teardown
-/

mutual
theorem markers_unwrapNode : ∀ (k : Nat) (d : Dom), isMarkerEl d = false →
    collectMarkers (unwrapNode k d).1 = []
  | _, .text _ _, _ => rfl
  | k, .elem i tg cls ats ck cs, hd => by
    have hcls : "yts-timestamp" ∉ cls := by simpa [isMarkerEl] using hd
    show collectMarkers (Dom.elem i tg cls ats ck (unwrapList k cs).1) = []
    simp [collectMarkers, hcls, markers_unwrapList k cs]
theorem markers_unwrapList : ∀ (k : Nat) (cs : List Dom),
    markersList (unwrapList k cs).1 = []
  | _, [] => rfl
  | k, c :: t => by
    by_cases hm : isMarkerEl c
    · show markersList (unwrapList k (c :: t)).1 = []
      simp [unwrapList, hm, markersList, collectMarkers, markers_unwrapList (k + 1) t]
    · show markersList (unwrapList k (c :: t)).1 = []
      simp [unwrapList, hm, markersList,
        markers_unwrapNode k c (by simpa using hm),
        markers_unwrapList (unwrapNode k c).2 t]
end

mutual
theorem textContent_unwrapNode : ∀ (k : Nat) (d : Dom),
    textContentD (unwrapNode k d).1 = textContentD d
  | _, .text _ _ => rfl
  | k, .elem i tg cls ats ck cs => by
    show textContentD (Dom.elem i tg cls ats ck (unwrapList k cs).1) = _
    simp [textContentD, textContent_unwrapList k cs]
theorem textContent_unwrapList : ∀ (k : Nat) (cs : List Dom),
    textContentList (unwrapList k cs).1 = textContentList cs
  | _, [] => rfl
  | k, c :: t => by
    by_cases hm : isMarkerEl c
    · show textContentList (unwrapList k (c :: t)).1 = _
      simp [unwrapList, hm, textContentList, textContentD,
        textContent_unwrapList (k + 1) t]
    · show textContentList (unwrapList k (c :: t)).1 = _
      simp [unwrapList, hm, textContentList, textContent_unwrapNode k c,
        textContent_unwrapList (unwrapNode k c).2 t]
end

theorem isMarkerEl_false_of_no_markers (c : Dom) (h : collectMarkers c = []) :
    isMarkerEl c = false := by
  cases c with
  | text i s => rfl
  | elem i tg cls ats ck cs =>
    by_cases hcon : "yts-timestamp" ∈ cls
    · rw [show collectMarkers (Dom.elem i tg cls ats ck cs)
          = (i, textContentList cs, ck) :: markersList cs from by
            simp [collectMarkers, hcon]] at h
      exact absurd h (by simp)
    · simp [isMarkerEl, hcon]

mutual
theorem unwrapNode_id : ∀ (k : Nat) (d : Dom), collectMarkers d = [] →
    unwrapNode k d = (d, k)
  | _, .text _ _, _ => rfl
  | k, .elem i tg cls ats ck cs, h => by
    have h2 : "yts-timestamp" ∉ cls ∧ markersList cs = [] := by
      simpa [collectMarkers] using h
    show (Dom.elem i tg cls ats ck (unwrapList k cs).1, (unwrapList k cs).2) = _
    rw [unwrapList_id k cs h2.2]
theorem unwrapList_id : ∀ (k : Nat) (cs : List Dom), markersList cs = [] →
    unwrapList k cs = (cs, k)
  | _, [], _ => rfl
  | k, c :: t, h => by
    have hpair : collectMarkers c = [] ∧ markersList t = [] := by
      have h2 : collectMarkers c ++ markersList t = [] := by simpa [markersList] using h
      exact List.append_eq_nil.mp h2
    have hm : isMarkerEl c = false := isMarkerEl_false_of_no_markers c hpair.1
    show unwrapList k (c :: t) = _
    simp [unwrapList, hm, unwrapNode_id k c hpair.1, unwrapList_id k t hpair.2]
end

theorem markerCount_unwrapMarkers (d : Dom) (hd : isMarkerEl d = false) :
    markerCountD (unwrapMarkers d) = 0 := by
  unfold markerCountD unwrapMarkers
  rw [markers_unwrapNode _ d hd]
  rfl

theorem unwrapMarkers_id (d : Dom) (h : collectMarkers d = []) : unwrapMarkers d = d := by
  unfold unwrapMarkers
  rw [unwrapNode_id _ d h]

/-- A fresh page state: empty document, nothing installed. -/
def w0 : WatcherState :=
  { doc := Dom.elem 0 "div" [] [] none [], styleCount := 0, live := [], handle := none,
    nextObs := 1, timers := [], now := 0 }

/-- C2: the Mutation Watcher does not debounce by replacement.  Two
qualifying mutation callbacks 10 ms apart (well inside the 100 ms window)
each run `setTimeout(addTimestampButtons, 100)`; the source stores no
timeout handle and never calls `clearTimeout`, so both timers stay armed
(firing at t=100 and t=110) and the Pass runs twice — the claim's "exactly
one Pass, earlier timer canceled" behavior does not occur. -/
theorem claim_C2_two_notifications_two_timers :
    (observerCallback (tick (observerCallback (initTimestampObserver w0)
        [⟨1, false⟩]) 10) [⟨1, false⟩]).timers = [100, 110] ∧
    ¬ ((observerCallback (tick (observerCallback (initTimestampObserver w0)
        [⟨1, false⟩]) 10) [⟨1, false⟩]).timers.length = 1) :=
  ⟨by decide, by decide⟩

/-- C3 counterexample: calling `initTimestampObserver` twice leaves TWO live
observers and TWO installed style elements — the second start neither
rejects nor stops the first instance, contradicting the claim. -/
theorem claim_C3_counterexample :
    (initTimestampObserver (initTimestampObserver w0)).live.length = 2 ∧
    (initTimestampObserver (initTimestampObserver w0)).styleCount = 2 :=
  ⟨by decide, by decide⟩

/-- C3 (amended): `initTimestampObserver` performs no single-instance check:
every call appends one more style element, creates one more live observer
(never disconnecting the previous one), and overwrites `window.YTSObserver`
with the new observer, so only the newest can ever be stopped. -/
theorem claim_C3_start_replaces_without_stop (s : WatcherState) :
    (initTimestampObserver s).live = s.live ++ [s.nextObs] ∧
    (initTimestampObserver s).styleCount = s.styleCount + 1 ∧
    (initTimestampObserver s).handle = some s.nextObs ∧
    (initTimestampObserver s).timers = s.timers :=
  ⟨rfl, rfl, rfl, rfl⟩

/-- A started watcher with one qualifying mutation delivered: the debounce
timer is armed (fires at t = 100). -/
def w1 : WatcherState := observerCallback (initTimestampObserver w0) [⟨1, false⟩]

/-- C4 counterexample: `cleanupTimestampObserver` does not cancel the armed
debounce timer — the source never stores a timeout handle and has no
`clearTimeout` — so after `stop()` the timer list is NOT empty and the
scheduled Pass still runs later, contradicting the claim's "no pending
debounce timer (so no Pass runs later)". -/
theorem claim_C4_counterexample :
    (cleanupTimestampObserver w1).timers = [100] ∧
    ¬ ((cleanupTimestampObserver w1).timers = []) :=
  ⟨by decide, by decide⟩

/-- C4 (amended): on a single-start state (at most one installed style
element; the only live observer, if any, is the stored one; the document
root is not itself a marker), `stop()` is idempotent and never errors: it
removes the stored observer and the style element, and unwraps every
TimestampMarker to plain text with the document's text content preserved.
It does NOT cancel an armed debounce timer (`timers` is untouched — see the
counterexample), so a Pass scheduled before `stop()` still runs later. -/
theorem claim_C4_stop_idempotent_teardown (s : WatcherState)
    (hroot : isMarkerEl s.doc = false)
    (hstyle : s.styleCount ≤ 1)
    (hlive : s.live = s.handle.toList) :
    cleanupTimestampObserver (cleanupTimestampObserver s) = cleanupTimestampObserver s ∧
    (cleanupTimestampObserver s).handle = none ∧
    (cleanupTimestampObserver s).live = [] ∧
    markerCountD (cleanupTimestampObserver s).doc = 0 ∧
    textContentD (cleanupTimestampObserver s).doc = textContentD s.doc ∧
    (cleanupTimestampObserver s).timers = s.timers := by
  have hdoc0 : collectMarkers (unwrapMarkers s.doc) = [] := markers_unwrapNode _ s.doc hroot
  have hlive0 : (cleanupTimestampObserver s).live = [] := by
    show (match s.handle with
      | some o => s.live.filter (fun x => decide (x ≠ o))
      | none => s.live) = []
    cases hh : s.handle with
    | some o =>
      rw [hlive, hh]
      simp [Option.toList]
    | none =>
      rw [hlive, hh]
      simp [Option.toList]
  refine ⟨?_, rfl, hlive0, ?_, ?_, rfl⟩
  · have e1 : unwrapMarkers (unwrapMarkers s.doc) = unwrapMarkers s.doc :=
      unwrapMarkers_id _ hdoc0
    have e2 : s.styleCount - 1 - 1 = s.styleCount - 1 := by omega
    simp only [cleanupTimestampObserver, e1, e2]
  · show markerCountD (unwrapMarkers s.doc) = 0
    exact markerCount_unwrapMarkers s.doc hroot
  · show textContentD (unwrapMarkers s.doc) = textContentD s.doc
    exact textContent_unwrapNode _ s.doc

/-- A single-start state carrying one marker and one armed timer. -/
def w2 : WatcherState :=
  { doc := Dom.elem 0 "div" [] [] none
      [Dom.elem 1 "span" ["yts-timestamp"] [] (some 130) [Dom.text 2 "02:10".data],
       Dom.text 3 " rest".data],
    styleCount := 1, live := [5], handle := some 5, nextObs := 6,
    timers := [100], now := 20 }

theorem claim_C4_stop_idempotent_teardown_witness :
    (isMarkerEl w2.doc = false ∧ w2.styleCount ≤ 1 ∧ w2.live = w2.handle.toList) ∧
    (cleanupTimestampObserver (cleanupTimestampObserver w2) = cleanupTimestampObserver w2 ∧
      (cleanupTimestampObserver w2).handle = none ∧
      (cleanupTimestampObserver w2).live = [] ∧
      markerCountD (cleanupTimestampObserver w2).doc = 0 ∧
      textContentD (cleanupTimestampObserver w2).doc = textContentD w2.doc ∧
      (cleanupTimestampObserver w2).timers = w2.timers) :=
  ⟨⟨by decide, by decide, by decide⟩,
    claim_C4_stop_idempotent_teardown w2 (by decide) (by decide) (by decide)⟩

/-!
## Lemmas: player location
-/

mutual
theorem qselNode_sound : ∀ (pr : Dom → Bool) (d : Dom) (p : List Nat),
    qselNode pr d = some p → ∃ x, nodeAt d p = some x ∧ pr x = true
  | pr, .text i s, p, h => by simp [qselNode] at h
  | pr, .elem i tg cls ats ck cs, p, h => by
    obtain ⟨j, q, rfl, hle, c, hc, x, hx, hpr⟩ := qselList_sound pr 0 cs p h
    rw [Nat.sub_zero] at hc
    exact ⟨x, by simp [nodeAt, hc, hx], hpr⟩
theorem qselList_sound : ∀ (pr : Dom → Bool) (i : Nat) (cs : List Dom) (p : List Nat),
    qselList pr i cs = some p →
    ∃ j q, p = j :: q ∧ i ≤ j ∧ ∃ c, cs[j - i]? = some c ∧
      ∃ x, nodeAt c q = some x ∧ pr x = true
  | pr, i, [], p, h => by simp [qselList] at h
  | pr, i, c :: t, p, h => by
    rw [qselList] at h
    split at h
    next hprc =>
      injection h with h2
      exact ⟨i, [], h2.symm, Nat.le_refl i, c, by simp, c, by cases c <;> rfl, hprc⟩
    next hprc =>
      split at h
      next q hq =>
        injection h with h2
        obtain ⟨x, hx, hpx⟩ := qselNode_sound pr c q hq
        exact ⟨i, q, h2.symm, Nat.le_refl i, c, by simp, x, hx, hpx⟩
      next hq =>
        obtain ⟨j, q, rfl, hle, c2, hc2, x, hx, hpx⟩ := qselList_sound pr (i + 1) t p h
        refine ⟨j, q, rfl, by omega, c2, ?_, x, hx, hpx⟩
        rw [show j - i = (j - (i + 1)) + 1 from by omega]
        simpa using hc2
end

theorem nodeAt_append : ∀ (root : Dom) (p q : List Nat),
    nodeAt root (p ++ q) = match nodeAt root p with
      | some d => nodeAt d q
      | none => none
  | root, [], q => by simp [nodeAt]
  | .text i s, j :: p2, q => by simp [nodeAt]
  | .elem i tg cls ats ck cs, j :: p2, q => by
    show nodeAt (Dom.elem i tg cls ats ck cs) (j :: (p2 ++ q)) = _
    cases hc : cs[j]? with
    | none => simp [nodeAt, hc]
    | some c => simp [nodeAt, hc, nodeAt_append c p2 q]

mutual
theorem mem_allPaths : ∀ (d : Dom) (p : List Nat) (x : Dom),
    nodeAt d p = some x → p ∈ allPaths d
  | .text i s, [], x, _ => by simp [allPaths]
  | .text i s, j :: q, x, h => by simp [nodeAt] at h
  | .elem i tg cls ats ck cs, [], x, _ => by simp [allPaths]
  | .elem i tg cls ats ck cs, j :: q, x, h => by
    rw [show nodeAt (Dom.elem i tg cls ats ck cs) (j :: q)
        = (match cs[j]? with | some c => nodeAt c q | none => none) from rfl] at h
    cases hc : cs[j]? with
    | none => rw [hc] at h; exact absurd h (by simp)
    | some c =>
      rw [hc] at h
      have := mem_allPathsList 0 cs j q x c hc h
      simpa [allPaths] using this
theorem mem_allPathsList : ∀ (i : Nat) (cs : List Dom) (j : Nat) (q : List Nat)
    (x : Dom) (c : Dom), cs[j]? = some c → nodeAt c q = some x →
    (i + j) :: q ∈ allPathsList i cs
  | i, [], j, q, x, c, hc, _ => by simp at hc
  | i, c0 :: t, 0, q, x, c, hc, hx => by
    have hcc : c0 = c := by simpa using hc
    subst hcc
    have hmem : q ∈ allPaths c0 := mem_allPaths c0 q x hx
    rw [show i + 0 = i from by omega]
    rw [show allPathsList i (c0 :: t)
        = (allPaths c0).map (fun q2 => i :: q2) ++ allPathsList (i + 1) t from rfl]
    exact List.mem_append.mpr (Or.inl (List.mem_map.mpr ⟨q, hmem, rfl⟩))
  | i, c0 :: t, j + 1, q, x, c, hc, hx => by
    have hrec := mem_allPathsList (i + 1) t j q x c (by simpa using hc) hx
    rw [show i + (j + 1) = (i + 1) + j from by omega]
    rw [show allPathsList i (c0 :: t)
        = (allPaths c0).map (fun q2 => i :: q2) ++ allPathsList (i + 1) t from rfl]
    exact List.mem_append.mpr (Or.inr hrec)
end

theorem ancestorSearch_mem (root : Dom) :
    ∀ (fuel : Nat) (p res : List Nat), ancestorSearchAux root fuel p = some res →
      res ∈ allYtIframes root := by
  intro fuel
  induction fuel with
  | zero => intro p res h; simp [ancestorSearchAux] at h
  | succ f ih =>
    intro p res h
    rw [ancestorSearchAux] at h
    split at h
    · exact absurd h (by simp)
    next container hcl =>
      split at h
      · exact absurd h (by simp)
      next hne =>
        split at h
        · exact absurd h (by simp)
        next pc hpc =>
          split at h
          · exact absurd h (by simp)
          next pcNode hpcn =>
            split at h
            next rel hrel =>
              injection h with h2
              subst h2
              obtain ⟨x, hx, hpx⟩ := qselNode_sound isYtIframe pcNode rel hrel
              have hnode : nodeAt root (pc ++ rel) = some x := by
                rw [nodeAt_append, hpcn]
                exact hx
              have hy : ytAt root (pc ++ rel) = true := by
                unfold ytAt
                rw [hnode]
                exact hpx
              have hmem : (pc ++ rel) ∈ allPaths root :=
                mem_allPaths root (pc ++ rel) x hnode
              exact List.mem_filter.mpr ⟨hmem, hy⟩
            next hrel => exact ih pc res h

/-- C9: `findYouTubePlayer` is a pure query (the embedding is a function of
the document alone) that never fails: when the ancestor walk finds no
embedded player but the document holds exactly one YouTube iframe, the
global fallback returns that iframe; when the document holds no YouTube
iframe at all, the result is `none` (the ancestor walk can only ever return
an iframe that exists in the document). -/
theorem claim_C9_findYouTubePlayer :
    (∀ (root : Dom) (p q : List Nat),
      ancestorSearch root p = none → allYtIframes root = [q] →
      findYouTubePlayer root p = some q) ∧
    (∀ (root : Dom) (p : List Nat), allYtIframes root = [] →
      findYouTubePlayer root p = none) := by
  constructor
  · intro root p q ha hq
    unfold findYouTubePlayer
    rw [ha, hq]
    rfl
  · intro root p hq
    unfold findYouTubePlayer
    have ha : ancestorSearch root p = none := by
      cases has : ancestorSearch root p with
      | none => rfl
      | some res =>
        have hmem := ancestorSearch_mem root (p.length + 1) p res has
        rw [hq] at hmem
        exact absurd hmem (by simp)
    rw [ha, hq]
    rfl

/-- A document whose timestamp block has no ancestor-sibling player but one
YouTube iframe elsewhere (exercising the global fallback). -/
def c9doc : Dom :=
  Dom.elem 0 "div" [] [] none
    [Dom.elem 1 "div" ["roam-block-container"] [] none
      [Dom.elem 2 "div" ["roam-block-container"] [] none []],
     Dom.elem 3 "div" ["roam-block-container"] [] none
      [Dom.elem 4 "iframe" [] [("src", "https://www.youtube.com/embed/abc")] none []]]

/-- The same document with the iframe removed. -/
def c9docEmpty : Dom :=
  Dom.elem 0 "div" [] [] none
    [Dom.elem 1 "div" ["roam-block-container"] [] none
      [Dom.elem 2 "div" ["roam-block-container"] [] none []]]

theorem claim_C9_findYouTubePlayer_witness :
    findYouTubePlayer c9doc [0, 0] = some [1, 0] ∧
    findYouTubePlayer c9docEmpty [0, 0] = none :=
  ⟨claim_C9_findYouTubePlayer.1 c9doc [0, 0] [1, 0] (by decide) (by decide),
    claim_C9_findYouTubePlayer.2 c9docEmpty [0, 0] (by decide)⟩
